import Mathlib

/-!
Verification development for the Apex-Fund coin-portfolio repository.

The embedding covers the local-storage coin service (`getAllCoins`,
`addCoin`, `updateCoin`, `deleteCoin`, `subscribeToCoinsUpdates` and its
polling step), the remote service's fault handling, and the portfolio
aggregator (`activeCoinsValue`, `soldCoinsProfit`, `totalValue`,
`activeCoinsROI`, `soldCoinsROI`, `totalROI`).

Currency amounts and percentages are modelled as exact rationals.  The
JavaScript truthiness test `coin.soldPrice` used by the aggregator's sold
filter is modelled by `Coin.soldPriceTruthy`: an absent `soldPrice` and a
`soldPrice` of `0` are both falsy.
-/

namespace Apex

/-- Coin record, translated from the `Coin` interface of the coin service.
The `soldDate` (a JS `Date`) is modelled as an opaque string token. -/
structure Coin where
  id : String
  name : String
  image : String
  acquisitionDate : String
  purchasePrice : ℚ
  currentValue : ℚ
  roi : ℚ
  description : Option String
  grade : Option String
  mint : Option String
  year : Option ℚ
  isSold : Bool
  soldPrice : Option ℚ
  soldDate : Option String
deriving DecidableEq, Repr

/-- Truthiness of `coin.soldPrice` as JavaScript evaluates it in a boolean
position (the aggregator's filters `coin.isSold && coin.soldPrice`):
`undefined` and `0` are falsy, every other number is truthy. -/
def Coin.soldPriceTruthy (c : Coin) : Bool :=
  match c.soldPrice with
  | some v => v != 0
  | none => false

/-- Value read by the non-null assertion `coin.soldPrice!`; the code only
reads it after a truthiness filter, where it is defined and nonzero. -/
def Coin.soldPriceVal (c : Coin) : ℚ :=
  c.soldPrice.getD 0

/-- Local strategy `initializeDatabase`: read the `apex_coins` slot; absent
key yields `[]`; a stored string that fails to parse yields `[]` (the
`try`/`catch` around `JSON.parse`).  The parser is an abstract `decode`. -/
def initializeDatabase (decode : String → Option (List Coin))
    (slot : Option String) : List Coin :=
  match slot with
  | some storedCoins =>
    match decode storedCoins with
    | some coins => coins
    | none => []
  | none => []

/-- Local strategy `getAllCoins`: refreshes from localStorage each time. -/
def getAllCoins (decode : String → Option (List Coin))
    (slot : Option String) : List Coin :=
  initializeDatabase decode slot

/-- Remote strategy `getAllCoins`: the `try`/`catch` returns `[]` on any
retrieval fault instead of propagating it. -/
def getAllCoinsRemote (result : Except Unit (List Coin)) : List Coin :=
  match result with
  | Except.ok coins => coins
  | Except.error _ => []

/-- Local strategy `addCoin`: `{ ...coin, id: Date.now().toString() }` then
`push`.  The fresh identifier produced by `Date.now().toString()` is a
parameter; any identifier carried by the input is overwritten by the
spread.  Returns the new record and the updated database. -/
def addCoin (coin : Coin) (freshId : String) (mockDatabase : List Coin) :
    Coin × List Coin :=
  let newCoin := { coin with id := freshId }
  (newCoin, mockDatabase ++ [newCoin])

/-- Local strategy `updateCoin`: `findIndex` on the identifier; if found the
record at that index is replaced and saved, otherwise nothing changes; the
input coin is returned either way. -/
def updateCoin (coin : Coin) (mockDatabase : List Coin) :
    Coin × List Coin :=
  match mockDatabase.findIdx? (fun c => c.id == coin.id) with
  | some index => (coin, mockDatabase.set index coin)
  | none => (coin, mockDatabase)

/-- Local strategy `deleteCoin`: keep every coin whose identifier differs
from `coinId`. -/
def deleteCoin (coinId : String) (mockDatabase : List Coin) : List Coin :=
  mockDatabase.filter (fun coin => coin.id != coinId)

/-- Local strategy `subscribeToCoinsUpdates`, synchronous part: the callback
is invoked immediately with the current database (`onUpdate(mockDatabase)`),
and the current database becomes the last-seen snapshot the polling timer
compares against.  Result: (callback invocations at subscribe time,
initial last-seen snapshot). -/
def subscribeToCoinsUpdates (mockDatabase : List Coin) :
    List (List Coin) × List Coin :=
  ([mockDatabase], mockDatabase)

/-- One tick of the polling timer inside `subscribeToCoinsUpdates`: re-read
the stored coins, and only when the serialized forms differ replace the
last-seen snapshot and invoke the callback with it.  Result: (new last-seen
snapshot, the callback invocation payload when one happens). -/
def pollStep (stringify : List Coin → String)
    (storedCoins mockDatabase : List Coin) :
    List Coin × Option (List Coin) :=
  if stringify storedCoins != stringify mockDatabase
  then (storedCoins, some storedCoins)
  else (mockDatabase, none)

/-- Aggregator: the active bucket, `coins.filter(coin => !coin.isSold)`. -/
def activeCoins (coins : List Coin) : List Coin :=
  coins.filter (fun coin => !coin.isSold)

/-- Aggregator: the sold bucket, `coins.filter(coin => coin.isSold &&
coin.soldPrice)` — note the truthiness test on `soldPrice`. -/
def soldCoins (coins : List Coin) : List Coin :=
  coins.filter (fun coin => coin.isSold && coin.soldPriceTruthy)

/-- Aggregator: `activeCoinsValue`, the sum of `currentValue` over the
active bucket. -/
def activeCoinsValue (coins : List Coin) : ℚ :=
  (coins.filter (fun coin => !coin.isSold)).foldl
    (fun sum coin => sum + coin.currentValue) 0

/-- Aggregator: `soldCoinsProfit`, the sum of `soldPrice - purchasePrice`
over the sold bucket. -/
def soldCoinsProfit (coins : List Coin) : ℚ :=
  (coins.filter (fun coin => coin.isSold && coin.soldPriceTruthy)).foldl
    (fun sum coin => sum + (coin.soldPriceVal - coin.purchasePrice)) 0

/-- Aggregator: `totalValue = cashReserves + activeCoinsValue +
soldCoinsProfit`. -/
def totalValue (cashReserves : ℚ) (coins : List Coin) : ℚ :=
  cashReserves + activeCoinsValue coins + soldCoinsProfit coins

/-- Aggregator: `totalActiveValue`, the sum of `currentValue` over the
active bucket (the code computes this reduce expression both at line 156
as the divisor of `activeCoinsROI` and at line 168). -/
def totalActiveValue (coins : List Coin) : ℚ :=
  (activeCoins coins).foldl (fun sum coin => sum + coin.currentValue) 0

/-- Aggregator: `totalSoldValue`, the sum of `purchasePrice` over the sold
bucket (computed at line 164 as the divisor of `soldCoinsROI` and at
line 169). -/
def totalSoldValue (coins : List Coin) : ℚ :=
  (soldCoins coins).foldl (fun sum coin => sum + coin.purchasePrice) 0

/-- Aggregator: `activeCoinsROI` — when the active bucket is nonempty,
the sum of `roi * currentValue` divided by the sum of `currentValue`
(the divisor is `totalActiveValue`, which the guard does not test for
zero); otherwise `0`. -/
def activeCoinsROI (coins : List Coin) : ℚ :=
  if 0 < (activeCoins coins).length then
    ((activeCoins coins).foldl
      (fun sum coin => sum + coin.roi * coin.currentValue) 0) /
      totalActiveValue coins
  else 0

/-- Aggregator: `soldCoinsROI` — when the sold bucket is nonempty, the sum
of `((soldPrice - purchasePrice) / purchasePrice * 100) * purchasePrice`
divided by the sum of `purchasePrice`; otherwise `0`. -/
def soldCoinsROI (coins : List Coin) : ℚ :=
  if 0 < (soldCoins coins).length then
    ((soldCoins coins).foldl
      (fun sum coin =>
        sum + ((coin.soldPriceVal - coin.purchasePrice) / coin.purchasePrice
          * 100) * coin.purchasePrice) 0) /
      totalSoldValue coins
  else 0

/-- Aggregator: `totalInvestmentValue = totalActiveValue + totalSoldValue`. -/
def totalInvestmentValue (coins : List Coin) : ℚ :=
  totalActiveValue coins + totalSoldValue coins

/-- Aggregator: `totalROI` — when `totalInvestmentValue > 0`, the weighted
average of the two bucket ROIs, weighted by `totalActiveValue` and
`totalSoldValue`; otherwise `0`. -/
def totalROI (coins : List Coin) : ℚ :=
  if 0 < totalInvestmentValue coins then
    (activeCoinsROI coins * totalActiveValue coins
      + soldCoinsROI coins * totalSoldValue coins) /
      totalInvestmentValue coins
  else 0

/-- Claim-side definition for C1: the per-coin weight of the single-pass
weighted average — an active coin weighs its `currentValue`, a coin of the
sold bucket weighs its `purchasePrice`, any other coin contributes no
weight (the partition is the code's). -/
def coinROIWeight (c : Coin) : ℚ :=
  if !c.isSold then c.currentValue
  else if c.soldPriceTruthy then c.purchasePrice
  else 0

/-- Claim-side definition for C1: the per-coin numerator contribution of
the single-pass weighted average — an active coin contributes
`roi * currentValue`, a sold-bucket coin contributes its sale ROI
`(soldPrice - purchasePrice) / purchasePrice * 100` times its
`purchasePrice`. -/
def coinROIContribution (c : Coin) : ℚ :=
  if !c.isSold then c.roi * c.currentValue
  else if c.soldPriceTruthy then
    ((c.soldPriceVal - c.purchasePrice) / c.purchasePrice * 100)
      * c.purchasePrice
  else 0

/-- Claim-side definition for C1: the single-pass weighted average over all
coins of their individual ROI contributions, `0` when the total weight is
not positive. -/
def singlePassROI (coins : List Coin) : ℚ :=
  if 0 < (coins.map coinROIWeight).sum then
    (coins.map coinROIContribution).sum / (coins.map coinROIWeight).sum
  else 0

/-- Claim-side definition for C4: the sold bucket as the claim words it —
`isSold = true` and `soldPrice` defined (a defined `soldPrice` of `0`
included). -/
def soldCoinsSpec (coins : List Coin) : List Coin :=
  coins.filter (fun coin => coin.isSold && coin.soldPrice.isSome)

/-- Claim-side definition for C4: `soldProfit` summed over the claim's sold
bucket. -/
def soldCoinsProfitSpec (coins : List Coin) : ℚ :=
  (soldCoinsSpec coins).foldl
    (fun sum coin => sum + (coin.soldPriceVal - coin.purchasePrice)) 0

/-- Claim-side definition for C4: `totalValue` computed as the claim words
it, with the sold bucket of `soldCoinsSpec`. -/
def totalValueSpec (cash : ℚ) (coins : List Coin) : ℚ :=
  cash + activeCoinsValue coins + soldCoinsProfitSpec coins

/-- Per-coin contribution to `totalValue` used by the amended C4: an active
coin contributes its `currentValue`, a coin of the code's sold bucket
(truthy `soldPrice`) contributes `soldPrice - purchasePrice`, any other
coin contributes nothing. -/
def coinValueContribution (c : Coin) : ℚ :=
  if !c.isSold then c.currentValue
  else if c.soldPriceTruthy then c.soldPriceVal - c.purchasePrice
  else 0

/-- The division branch of `activeCoinsROI` is taken exactly when the
active bucket is nonempty, and its divisor is `totalActiveValue`.  This
proposition holds when that branch is taken with a zero divisor. -/
def activeROIZeroDivisorHit (coins : List Coin) : Prop :=
  0 < (activeCoins coins).length ∧ totalActiveValue coins = 0

/-- Concrete active coin used by witnesses. -/
def sampleCoin : Coin :=
  ⟨"a1", "1921 Morgan", "morgan.png", "2020-01-01", 100, 150, 50,
    none, none, none, none, false, none, none⟩

/-- Concrete active coin whose `currentValue` is `0`. -/
def zeroValueCoin : Coin :=
  ⟨"z1", "Zero Value", "zero.png", "2020-01-01", 100, 0, 50,
    none, none, none, none, false, none, none⟩

/-- Concrete sold coin whose defined `soldPrice` is `0`. -/
def zeroSoldCoin : Coin :=
  ⟨"s0", "Given Away", "gift.png", "2020-01-01", 100, 0, 0,
    none, none, none, none, true, some 0, none⟩

/-- Concrete sold coin with a nonzero `soldPrice`. -/
def soldCoinSample : Coin :=
  ⟨"s1", "Sold Morgan", "sold.png", "2020-01-01", 100, 0, 0,
    none, none, none, none, true, some 150, none⟩

/-- Concrete sold coin with `purchasePrice = 0` and a truthy `soldPrice`. -/
def zeroPurchaseSoldCoin : Coin :=
  ⟨"s2", "Found Penny", "penny.png", "2020-01-01", 0, 0, 0,
    none, none, none, none, true, some 180, none⟩

/-- Value of a JavaScript number as the aggregator's arithmetic can produce
it from finite inputs: a finite value (kept exact as a rational), a signed
infinity, or NaN.  Rationals have no negative zero, and the aggregator's
divisors are sums of finite values, so a zero divisor is always positive
zero here. -/
inductive JsNum
  | num (q : ℚ)
  | posInf
  | negInf
  | nan
deriving DecidableEq, Repr

/-- JavaScript negation on `JsNum`. -/
def JsNum.neg : JsNum → JsNum
  | num q => num (-q)
  | posInf => negInf
  | negInf => posInf
  | nan => nan

/-- JavaScript addition on `JsNum`: NaN propagates, opposite infinities
give NaN, an infinity absorbs finite values. -/
def JsNum.add : JsNum → JsNum → JsNum
  | nan, _ => nan
  | _, nan => nan
  | posInf, negInf => nan
  | negInf, posInf => nan
  | posInf, _ => posInf
  | negInf, _ => negInf
  | num _, posInf => posInf
  | num _, negInf => negInf
  | num a, num b => num (a + b)

/-- JavaScript subtraction on `JsNum`, as addition of the negation. -/
def JsNum.sub (a b : JsNum) : JsNum :=
  a.add b.neg

/-- JavaScript multiplication on `JsNum`: NaN propagates, an infinity times
zero is NaN, otherwise infinities follow the sign rules. -/
def JsNum.mul : JsNum → JsNum → JsNum
  | nan, _ => nan
  | _, nan => nan
  | num a, num b => num (a * b)
  | num a, posInf => if a = 0 then nan else if 0 < a then posInf else negInf
  | num a, negInf => if a = 0 then nan else if 0 < a then negInf else posInf
  | posInf, num b => if b = 0 then nan else if 0 < b then posInf else negInf
  | negInf, num b => if b = 0 then nan else if 0 < b then negInf else posInf
  | posInf, posInf => posInf
  | posInf, negInf => negInf
  | negInf, posInf => negInf
  | negInf, negInf => posInf

/-- JavaScript division on `JsNum`: NaN propagates, `0 / 0` is NaN, a
nonzero finite value divided by (positive) zero is a signed infinity, a
finite value divided by an infinity is zero, an infinity divided by a
finite value is a signed infinity, and an infinity divided by an infinity
is NaN. -/
def JsNum.div : JsNum → JsNum → JsNum
  | nan, _ => nan
  | _, nan => nan
  | num a, num b =>
    if b = 0 then
      if a = 0 then nan else if 0 < a then posInf else negInf
    else num (a / b)
  | num _, posInf => num 0
  | num _, negInf => num 0
  | posInf, num b => if 0 ≤ b then posInf else negInf
  | negInf, num b => if 0 ≤ b then negInf else posInf
  | posInf, posInf => nan
  | posInf, negInf => nan
  | negInf, posInf => nan
  | negInf, negInf => nan

/-- Aggregator `activeCoinsROI` with JavaScript number semantics.  The two
reduces only add products of finite inputs, so they are exact; the guarded
division is the one operation that can leave the finite range (the guard
tests only that the active bucket is nonempty, not the divisor). -/
def activeCoinsROIJs (coins : List Coin) : JsNum :=
  if 0 < (activeCoins coins).length then
    JsNum.div
      (JsNum.num ((activeCoins coins).foldl
        (fun sum coin => sum + coin.roi * coin.currentValue) 0))
      (JsNum.num (totalActiveValue coins))
  else JsNum.num 0

/-- Aggregator `soldCoinsROI` with JavaScript number semantics: each
summand divides by the coin's own `purchasePrice`, so the fold itself runs
on `JsNum`, and the bucket total then divides the result. -/
def soldCoinsROIJs (coins : List Coin) : JsNum :=
  if 0 < (soldCoins coins).length then
    JsNum.div
      ((soldCoins coins).foldl
        (fun sum coin =>
          JsNum.add sum (JsNum.mul (JsNum.mul
            (JsNum.div (JsNum.num (coin.soldPriceVal - coin.purchasePrice))
              (JsNum.num coin.purchasePrice))
            (JsNum.num 100)) (JsNum.num coin.purchasePrice)))
        (JsNum.num 0))
      (JsNum.num (totalSoldValue coins))
  else JsNum.num 0

/-- Aggregator `totalROI` with JavaScript number semantics: the weighted
average of the two bucket ROIs, whose weights and guard are sums of finite
inputs and hence exact. -/
def totalROIJs (coins : List Coin) : JsNum :=
  if 0 < totalInvestmentValue coins then
    JsNum.div
      (JsNum.add
        (JsNum.mul (activeCoinsROIJs coins) (JsNum.num (totalActiveValue coins)))
        (JsNum.mul (soldCoinsROIJs coins) (JsNum.num (totalSoldValue coins))))
      (JsNum.num (totalInvestmentValue coins))
  else JsNum.num 0

/-- Wire form of the remote document's `soldDate` field: a Firestore
timestamp encoded from the in-memory date, or an explicit null. -/
inductive WireDate
  | timestamp (d : String)
  | null
deriving DecidableEq, Repr

/-- The remote strategy's date re-encoding `coin.soldDate ?
Timestamp.fromDate(new Date(coin.soldDate)) : null`. -/
def encodeSoldDate : Option String → WireDate
  | some d => WireDate.timestamp d
  | none => WireDate.null

/-- Field payload of the document the remote `addCoin` stores: the spread
of the input record — including whatever `id` field the input carries at
runtime — with `soldDate` replaced by its wire encoding. -/
structure RemoteDocData where
  id : String
  name : String
  image : String
  acquisitionDate : String
  purchasePrice : ℚ
  currentValue : ℚ
  roi : ℚ
  description : Option String
  grade : Option String
  mint : Option String
  year : Option ℚ
  isSold : Bool
  soldPrice : Option ℚ
  soldDate : WireDate
deriving DecidableEq, Repr

/-- Remote strategy `addCoin`: `addDoc` stores, under the backend-assigned
document key, the spread `{ ...coin, soldDate: encoded }`, and the function
returns `{ ...coin, id: docRef.id }`.  Result: (returned record, document
key, stored document data). -/
def addCoinRemote (coin : Coin) (freshDocId : String) :
    Coin × String × RemoteDocData :=
  ({ coin with id := freshDocId },
   freshDocId,
   ⟨coin.id, coin.name, coin.image, coin.acquisitionDate, coin.purchasePrice,
    coin.currentValue, coin.roi, coin.description, coin.grade, coin.mint,
    coin.year, coin.isSold, coin.soldPrice, encodeSoldDate coin.soldDate⟩)

/-- Concrete input to the remote `addCoin` that carries a runtime
identifier field and a sold date. -/
def remoteInputCoin : Coin :=
  ⟨"caller-id", "Remote Morgan", "remote.png", "2021-01-01", 100, 150, 50,
    none, none, none, none, true, some 180, some "2021-05-05"⟩

/-- Folding `+ f c` over a list starting from `a` is `a` plus the sum of the
mapped list. -/
lemma foldl_add_eq_sum (f : Coin → ℚ) (l : List Coin) (a : ℚ) :
    l.foldl (fun sum c => sum + f c) a = a + (l.map f).sum := by
  induction l generalizing a with
  | nil => simp
  | cons c l ih => simp [ih]; ring

/-- Summing `f` over a filtered list equals summing the if-guarded `f` over
the whole list. -/
lemma sum_map_filter (p : Coin → Bool) (f : Coin → ℚ) (l : List Coin) :
    ((l.filter p).map f).sum = (l.map (fun c => if p c then f c else 0)).sum := by
  induction l with
  | nil => rfl
  | cons c l ih => by_cases h : p c <;> simp [List.filter_cons, h, ih]

/-- In a list of nonneg rationals of sum zero, every element is zero. -/
lemma eq_zero_of_mem_of_sum_eq_zero {l : List ℚ} (h0 : ∀ x ∈ l, 0 ≤ x)
    (hs : l.sum = 0) : ∀ x ∈ l, x = 0 := by
  induction l with
  | nil => simp
  | cons a l ih =>
    have ha : 0 ≤ a := h0 a (by simp)
    have hl : ∀ x ∈ l, 0 ≤ x := fun x hx => h0 x (by simp [hx])
    have hsum : 0 ≤ l.sum := List.sum_nonneg hl
    rw [List.sum_cons] at hs
    have ha0 : a = 0 := by linarith
    have hl0 : l.sum = 0 := by linarith
    intro x hx
    rcases List.mem_cons.mp hx with h | h
    · exact h ▸ ha0
    · exact ih hl hl0 x h

/-- Splitting a per-coin quantity guarded by the code's disposition
partition into the active-bucket part and the sold-bucket part. -/
lemma sum_split_by_disposition (f g : Coin → ℚ) (l : List Coin) :
    (l.map (fun c =>
      if !c.isSold then f c else if c.soldPriceTruthy then g c else 0)).sum
      = ((l.filter (fun c => !c.isSold)).map f).sum
        + ((l.filter (fun c => c.isSold && c.soldPriceTruthy)).map g).sum := by
  rw [sum_map_filter, sum_map_filter, ← List.sum_map_add]
  congr 1
  apply List.map_congr_left
  intro c _
  cases h : c.isSold <;> cases h2 : c.soldPriceTruthy <;> simp [h, h2]

/-- C2: for every cash reserve value, the aggregator on an empty coin list
yields `activeCoinsROI = 0`, `soldCoinsROI = 0`, `totalROI = 0`, and
`totalValue` equal to the cash reserve value. -/
theorem empty_coins_aggregate (cashReserves : ℚ) :
    activeCoinsROI [] = 0 ∧ soldCoinsROI [] = 0 ∧ totalROI [] = 0 ∧
    totalValue cashReserves [] = cashReserves := by
  refine ⟨rfl, rfl, ?_, ?_⟩
  · simp [totalROI, totalInvestmentValue, totalActiveValue, totalSoldValue,
      activeCoins, soldCoins]
  · simp [totalValue, activeCoinsValue, soldCoinsProfit]

/-- C5: deleting the same identifier twice yields the same final collection
as deleting it once; the second call is an ordinary call on the result and
is not an error (deleting an absent identifier just filters nothing out). -/
theorem deleteCoin_idempotent (coinId : String) (mockDatabase : List Coin) :
    deleteCoin coinId (deleteCoin coinId mockDatabase)
      = deleteCoin coinId mockDatabase := by
  unfold deleteCoin
  rw [List.filter_filter]
  congr 1
  funext coin
  exact Bool.and_self _

/-- C6: when no stored coin matches the identifier of the input coin, the
local `updateCoin` leaves the stored record set unchanged and returns the
input coin as if the update succeeded. -/
theorem updateCoin_absent_id_noop (coin : Coin) (mockDatabase : List Coin)
    (h : ∀ c ∈ mockDatabase, c.id ≠ coin.id) :
    updateCoin coin mockDatabase = (coin, mockDatabase) := by
  unfold updateCoin
  have hnone : mockDatabase.findIdx? (fun c => c.id == coin.id) = none := by
    rw [List.findIdx?_eq_none_iff]
    intro c hc
    simp [h c hc]
  rw [hnone]

/-- Witness for C6 at a concrete store and coin with no matching id. -/
theorem updateCoin_absent_id_noop_witness :
    updateCoin sampleCoin [soldCoinSample] = (sampleCoin, [soldCoinSample]) :=
  updateCoin_absent_id_noop sampleCoin [soldCoinSample]
    (by intro c hc; simp at hc; subst hc; simp [sampleCoin, soldCoinSample])

/-- C7 (amended): in both strategies the returned record carries the
freshly assigned identifier — any caller-supplied identifier in the input
is overwritten in the returned record — and its non-id fields equal those
of the input.  The local strategy stores exactly the returned record,
appended to the collection.  The remote strategy stores the document under
the fresh key, but the stored payload is the spread of the input: it keeps
whatever `id` field the input carried at runtime (not ignored in storage)
and re-encodes `soldDate` to its wire form, so the stored document is not
in general the returned record (see the counterexample). -/
theorem addCoin_fresh_id_and_fields (coin : Coin) (freshId : String)
    (mockDatabase : List Coin) :
    (addCoin coin freshId mockDatabase).1.id = freshId ∧
    (addCoin coin freshId mockDatabase).1.name = coin.name ∧
    (addCoin coin freshId mockDatabase).1.image = coin.image ∧
    (addCoin coin freshId mockDatabase).1.acquisitionDate
      = coin.acquisitionDate ∧
    (addCoin coin freshId mockDatabase).1.purchasePrice = coin.purchasePrice ∧
    (addCoin coin freshId mockDatabase).1.currentValue = coin.currentValue ∧
    (addCoin coin freshId mockDatabase).1.roi = coin.roi ∧
    (addCoin coin freshId mockDatabase).1.description = coin.description ∧
    (addCoin coin freshId mockDatabase).1.grade = coin.grade ∧
    (addCoin coin freshId mockDatabase).1.mint = coin.mint ∧
    (addCoin coin freshId mockDatabase).1.year = coin.year ∧
    (addCoin coin freshId mockDatabase).1.isSold = coin.isSold ∧
    (addCoin coin freshId mockDatabase).1.soldPrice = coin.soldPrice ∧
    (addCoin coin freshId mockDatabase).1.soldDate = coin.soldDate ∧
    (addCoin coin freshId mockDatabase).2
      = mockDatabase ++ [(addCoin coin freshId mockDatabase).1] ∧
    (addCoinRemote coin freshId).1.id = freshId ∧
    (addCoinRemote coin freshId).1.name = coin.name ∧
    (addCoinRemote coin freshId).1.image = coin.image ∧
    (addCoinRemote coin freshId).1.acquisitionDate = coin.acquisitionDate ∧
    (addCoinRemote coin freshId).1.purchasePrice = coin.purchasePrice ∧
    (addCoinRemote coin freshId).1.currentValue = coin.currentValue ∧
    (addCoinRemote coin freshId).1.roi = coin.roi ∧
    (addCoinRemote coin freshId).1.description = coin.description ∧
    (addCoinRemote coin freshId).1.grade = coin.grade ∧
    (addCoinRemote coin freshId).1.mint = coin.mint ∧
    (addCoinRemote coin freshId).1.year = coin.year ∧
    (addCoinRemote coin freshId).1.isSold = coin.isSold ∧
    (addCoinRemote coin freshId).1.soldPrice = coin.soldPrice ∧
    (addCoinRemote coin freshId).1.soldDate = coin.soldDate ∧
    (addCoinRemote coin freshId).2.1 = freshId ∧
    (addCoinRemote coin freshId).2.2.id = coin.id ∧
    (addCoinRemote coin freshId).2.2.soldDate = encodeSoldDate coin.soldDate :=
  ⟨rfl, rfl, rfl, rfl, rfl, rfl, rfl, rfl, rfl, rfl, rfl, rfl, rfl, rfl, rfl,
   rfl, rfl, rfl, rfl, rfl, rfl, rfl, rfl, rfl, rfl, rfl, rfl, rfl, rfl, rfl,
   rfl, rfl⟩

/-- C7 counterexample: at a runtime input carrying an identifier field and
a sold date, the remote `addCoin` returns the record under the fresh
document key, but the document it stores keeps the caller-supplied
identifier as a field (it is not ignored) and re-encodes the sold date, so
the stored record is not the returned one. -/
theorem addCoinRemote_stores_caller_id :
    (addCoinRemote remoteInputCoin "fresh-doc-key").1.id = "fresh-doc-key" ∧
    (addCoinRemote remoteInputCoin "fresh-doc-key").2.2.id = "caller-id" ∧
    (addCoinRemote remoteInputCoin "fresh-doc-key").2.2.id
      ≠ (addCoinRemote remoteInputCoin "fresh-doc-key").1.id ∧
    (addCoinRemote remoteInputCoin "fresh-doc-key").2.2.soldDate
      = WireDate.timestamp "2021-05-05" ∧
    (addCoinRemote remoteInputCoin "fresh-doc-key").1.soldDate
      = some "2021-05-05" := by
  refine ⟨rfl, rfl, ?_, rfl, rfl⟩
  decide

/-- C8: `getAllCoins` never propagates a fault: an absent storage key yields
the empty collection, an unparseable stored encoding yields the empty
collection, and the remote variant returns the empty list on a retrieval
fault. -/
theorem getAllCoins_fault_tolerant (decode : String → Option (List Coin))
    (s : String) (h : decode s = none) :
    getAllCoins decode none = [] ∧ getAllCoins decode (some s) = [] ∧
    getAllCoinsRemote (Except.error ()) = [] := by
  refine ⟨rfl, ?_, rfl⟩
  simp [getAllCoins, initializeDatabase, h]

/-- Witness for C8 with a decoder rejecting a concrete stored string. -/
theorem getAllCoins_fault_tolerant_witness :
    getAllCoins (fun _ => none) none = [] ∧
    getAllCoins (fun _ => none) (some "not valid json") = [] ∧
    getAllCoinsRemote (Except.error ()) = [] :=
  getAllCoins_fault_tolerant (fun _ => none) "not valid json" rfl

/-- C9: subscribing invokes the callback exactly once, synchronously, with
the full coin set at subscribe time; a polling step invokes the callback
exactly when the serialized form of the stored collection differs from the
last-seen serialized value, and then with the stored collection. -/
theorem subscribe_immediate_once_and_poll_on_change
    (mockDatabase storedCoins lastSeen : List Coin)
    (stringify : List Coin → String) :
    (subscribeToCoinsUpdates mockDatabase).1 = [mockDatabase] ∧
    ((pollStep stringify storedCoins lastSeen).2 = some storedCoins ↔
      stringify storedCoins ≠ stringify lastSeen) ∧
    ((pollStep stringify storedCoins lastSeen).2 = none ↔
      stringify storedCoins = stringify lastSeen) := by
  refine ⟨rfl, ?_, ?_⟩ <;>
    by_cases h : stringify storedCoins = stringify lastSeen <;>
      simp [pollStep, h]

/-- C10: `deleteCoin` removes exactly the coins whose identifier equals the
given one — the result is a sublist of the original (so the survivors keep
their relative order and are field-for-field unchanged), and a coin lies in
the result exactly when it lies in the original with a different
identifier. -/
theorem deleteCoin_removes_exactly (coinId : String)
    (mockDatabase : List Coin) :
    (deleteCoin coinId mockDatabase).Sublist mockDatabase ∧
    ∀ c : Coin, c ∈ deleteCoin coinId mockDatabase ↔
      (c ∈ mockDatabase ∧ c.id ≠ coinId) := by
  constructor
  · exact List.filter_sublist mockDatabase
  · intro c
    simp [deleteCoin, List.mem_filter]

/-- C3 counterexample: a single active coin with `currentValue = 0` makes
`activeCoinsROI` take its division branch (the guard only tests that the
active bucket is nonempty) with divisor `totalActiveValue = 0`, refuting
the claim that the division is never performed with a zero divisor. -/
theorem activeROI_zero_divisor_occurs : activeROIZeroDivisorHit [zeroValueCoin] := by
  constructor
  · simp [activeCoins, zeroValueCoin]
  · simp [totalActiveValue, activeCoins, zeroValueCoin]

/-- C3 amended: `activeCoinsROI` is `0` when there are no active coins, and
equals the weighted average of the active coins' `roi` weighted by
`currentValue` whenever the total active `currentValue` is nonzero; the
guard, however, only tests that the active bucket is nonempty, so with
active coins of total `currentValue` zero the division is performed with a
zero divisor (see the counterexample). -/
theorem activeROI_weighted_average_amended (coins : List Coin) :
    (activeCoins coins = [] → activeCoinsROI coins = 0) ∧
    (totalActiveValue coins ≠ 0 →
      activeCoinsROI coins * totalActiveValue coins
        = ((activeCoins coins).map (fun c => c.roi * c.currentValue)).sum) := by
  constructor
  · intro hempty
    simp [activeCoinsROI, hempty]
  · intro hW
    have hlen : 0 < (activeCoins coins).length := by
      rcases Nat.eq_zero_or_pos (activeCoins coins).length with h0 | h0
      · exact absurd (by simp [totalActiveValue, List.length_eq_zero.mp h0]) hW
      · exact h0
    unfold activeCoinsROI
    rw [if_pos hlen, div_mul_cancel₀ _ hW, foldl_add_eq_sum, zero_add]

/-- Witness for the amended C3, applied at an empty list and at a concrete
active coin of nonzero total value. -/
theorem activeROI_weighted_average_amended_witness :
    (activeCoinsROI [] = 0) ∧
    (totalActiveValue [sampleCoin] ≠ 0 ∧
      activeCoinsROI [sampleCoin] * totalActiveValue [sampleCoin]
        = ((activeCoins [sampleCoin]).map
            (fun c => c.roi * c.currentValue)).sum) := by
  have hW : totalActiveValue [sampleCoin] ≠ 0 := by
    norm_num [totalActiveValue, activeCoins, sampleCoin]
  exact ⟨(activeROI_weighted_average_amended []).1 rfl,
    hW, (activeROI_weighted_average_amended [sampleCoin]).2 hW⟩

/-- C4 counterexample: a sold coin whose defined `soldPrice` is `0` is
excluded from the code's sold bucket (the filter `coin.isSold &&
coin.soldPrice` tests truthiness, and `0` is falsy), so with cash `0` the
code computes `totalValue = 0`, while the claim's computation — which
includes coins whose `soldPrice` is defined and equal to `0` — yields
`-100`. -/
theorem totalValue_sold_at_zero_counterexample :
    totalValue 0 [zeroSoldCoin] = 0 ∧ totalValueSpec 0 [zeroSoldCoin] = -100 := by
  constructor <;>
    norm_num [totalValue, totalValueSpec, activeCoinsValue, soldCoinsProfit,
      soldCoinsSpec, soldCoinsProfitSpec, zeroSoldCoin,
      Coin.soldPriceTruthy, Coin.soldPriceVal]

/-- C4 amended: with the sold bucket as the code computes it — `isSold` and
`soldPrice` defined and nonzero (truthy) — `totalValue` equals the cash
reserve plus the single-pass sum of per-coin contributions: `currentValue`
for an active coin, `soldPrice - purchasePrice` for a sold-bucket coin, and
nothing for a sold coin with absent or zero `soldPrice`. -/
theorem totalValue_partition_amended (cashReserves : ℚ) (coins : List Coin) :
    totalValue cashReserves coins
      = cashReserves + (coins.map coinValueContribution).sum := by
  have hsplit := sum_split_by_disposition (fun c => c.currentValue)
    (fun c => c.soldPriceVal - c.purchasePrice) coins
  have hcvc : coins.map coinValueContribution
      = coins.map (fun c => if !c.isSold then c.currentValue
          else if c.soldPriceTruthy then c.soldPriceVal - c.purchasePrice
          else 0) := rfl
  unfold totalValue activeCoinsValue soldCoinsProfit
  rw [foldl_add_eq_sum, foldl_add_eq_sum, hcvc, hsplit]
  ring

/-- With nonnegative current values, the active bucket's pre-averaged ROI
times its weight recovers the bucket's summed numerator — also in the
degenerate cases (empty bucket, or total weight zero, where every active
`currentValue` is zero and the numerator vanishes). -/
lemma activeROI_mul_weight (coins : List Coin)
    (h : ∀ c ∈ coins, 0 ≤ c.currentValue) :
    activeCoinsROI coins * totalActiveValue coins
      = ((activeCoins coins).map (fun c => c.roi * c.currentValue)).sum := by
  by_cases hlen : 0 < (activeCoins coins).length
  · by_cases hW : totalActiveValue coins = 0
    · have hWsum : ((activeCoins coins).map (fun c => c.currentValue)).sum = 0 := by
        have hW2 := hW
        unfold totalActiveValue at hW2
        rw [foldl_add_eq_sum, zero_add] at hW2
        exact hW2
      have hmem : ∀ x ∈ (activeCoins coins).map (fun c => c.currentValue), 0 ≤ x := by
        intro x hx
        rcases List.mem_map.mp hx with ⟨c, hc, rfl⟩
        exact h c (List.mem_of_mem_filter hc)
      have hzero := eq_zero_of_mem_of_sum_eq_zero hmem hWsum
      have hnum : ((activeCoins coins).map (fun c => c.roi * c.currentValue)).sum = 0 := by
        apply List.sum_eq_zero
        intro x hx
        rcases List.mem_map.mp hx with ⟨c, hc, rfl⟩
        have hc0 : c.currentValue = 0 :=
          hzero c.currentValue (List.mem_map.mpr ⟨c, hc, rfl⟩)
        rw [hc0, mul_zero]
      rw [hW, mul_zero, hnum]
    · unfold activeCoinsROI
      rw [if_pos hlen, div_mul_cancel₀ _ hW, foldl_add_eq_sum, zero_add]
  · have hempty : activeCoins coins = [] := by
      rcases Nat.eq_zero_or_pos (activeCoins coins).length with h0 | h0
      · exact List.length_eq_zero.mp h0
      · exact absurd h0 hlen
    unfold activeCoinsROI
    rw [if_neg hlen, zero_mul, hempty]
    simp

/-- With nonnegative purchase prices, the sold bucket's pre-averaged ROI
times its weight recovers the bucket's summed numerator — also in the
degenerate cases (empty bucket, or total weight zero, where every sold
`purchasePrice` is zero and each numerator term carries a factor zero). -/
lemma soldROI_mul_weight (coins : List Coin)
    (h : ∀ c ∈ coins, 0 ≤ c.purchasePrice) :
    soldCoinsROI coins * totalSoldValue coins
      = ((soldCoins coins).map
          (fun c => ((c.soldPriceVal - c.purchasePrice) / c.purchasePrice * 100)
            * c.purchasePrice)).sum := by
  by_cases hlen : 0 < (soldCoins coins).length
  · by_cases hW : totalSoldValue coins = 0
    · have hWsum : ((soldCoins coins).map (fun c => c.purchasePrice)).sum = 0 := by
        have hW2 := hW
        unfold totalSoldValue at hW2
        rw [foldl_add_eq_sum, zero_add] at hW2
        exact hW2
      have hmem : ∀ x ∈ (soldCoins coins).map (fun c => c.purchasePrice), 0 ≤ x := by
        intro x hx
        rcases List.mem_map.mp hx with ⟨c, hc, rfl⟩
        exact h c (List.mem_of_mem_filter hc)
      have hzero := eq_zero_of_mem_of_sum_eq_zero hmem hWsum
      have hnum : ((soldCoins coins).map
          (fun c => ((c.soldPriceVal - c.purchasePrice) / c.purchasePrice * 100)
            * c.purchasePrice)).sum = 0 := by
        apply List.sum_eq_zero
        intro x hx
        rcases List.mem_map.mp hx with ⟨c, hc, rfl⟩
        have hc0 : c.purchasePrice = 0 :=
          hzero c.purchasePrice (List.mem_map.mpr ⟨c, hc, rfl⟩)
        rw [hc0, mul_zero]
      rw [hW, mul_zero, hnum]
    · unfold soldCoinsROI
      rw [if_pos hlen, div_mul_cancel₀ _ hW, foldl_add_eq_sum, zero_add]
  · have hempty : soldCoins coins = [] := by
      rcases Nat.eq_zero_or_pos (soldCoins coins).length with h0 | h0
      · exact List.length_eq_zero.mp h0
      · exact absurd h0 hlen
    unfold soldCoinsROI
    rw [if_neg hlen, zero_mul, hempty]
    simp

/-- The single-pass total weight splits into the two bucket weights. -/
lemma weight_sum_eq (coins : List Coin) :
    (coins.map coinROIWeight).sum
      = totalActiveValue coins + totalSoldValue coins := by
  have hsplit := sum_split_by_disposition (fun c => c.currentValue)
    (fun c => c.purchasePrice) coins
  have h1 : coins.map coinROIWeight
      = coins.map (fun c => if !c.isSold then c.currentValue
          else if c.soldPriceTruthy then c.purchasePrice else 0) := rfl
  rw [h1, hsplit]
  unfold totalActiveValue totalSoldValue activeCoins soldCoins
  rw [foldl_add_eq_sum, foldl_add_eq_sum, zero_add, zero_add]

/-- The single-pass total numerator splits into the two bucket numerators. -/
lemma contribution_sum_eq (coins : List Coin) :
    (coins.map coinROIContribution).sum
      = ((activeCoins coins).map (fun c => c.roi * c.currentValue)).sum
        + ((soldCoins coins).map
            (fun c => ((c.soldPriceVal - c.purchasePrice) / c.purchasePrice * 100)
              * c.purchasePrice)).sum := by
  have hsplit := sum_split_by_disposition (fun c => c.roi * c.currentValue)
    (fun c => ((c.soldPriceVal - c.purchasePrice) / c.purchasePrice * 100)
      * c.purchasePrice) coins
  have h1 : coins.map coinROIContribution
      = coins.map (fun c => if !c.isSold then c.roi * c.currentValue
          else if c.soldPriceTruthy then
            ((c.soldPriceVal - c.purchasePrice) / c.purchasePrice * 100)
              * c.purchasePrice
          else 0) := rfl
  rw [h1, hsplit]
  rfl

/-- ℚ-level composition identity: within the total-division model (every
divisor nonzero or collapsed to `0`), the three-level `totalROI` equals the
single-pass average under the data model's nonnegative amounts.  This is
the exact-arithmetic core reused by the JavaScript-semantics theorem,
which adds the hypotheses that keep the real computation finite. -/
lemma totalROI_rat_eq_singlePassROI (coins : List Coin)
    (h : ∀ c ∈ coins, 0 ≤ c.currentValue ∧ 0 ≤ c.purchasePrice) :
    totalROI coins = singlePassROI coins := by
  have hW := weight_sum_eq coins
  have hC := contribution_sum_eq coins
  have hA := activeROI_mul_weight coins (fun c hc => (h c hc).1)
  have hS := soldROI_mul_weight coins (fun c hc => (h c hc).2)
  unfold totalROI singlePassROI totalInvestmentValue
  rw [hW, hC, hA, hS]

/-- When every coin of the list has a nonzero `purchasePrice`, the sold
bucket's fold under JavaScript semantics stays finite and agrees with the
exact fold. -/
lemma sold_foldl_js_eq (l : List Coin) (h : ∀ c ∈ l, c.purchasePrice ≠ 0)
    (a : ℚ) :
    l.foldl
      (fun sum coin =>
        JsNum.add sum (JsNum.mul (JsNum.mul
          (JsNum.div (JsNum.num (coin.soldPriceVal - coin.purchasePrice))
            (JsNum.num coin.purchasePrice))
          (JsNum.num 100)) (JsNum.num coin.purchasePrice)))
      (JsNum.num a)
      = JsNum.num (l.foldl
          (fun sum coin =>
            sum + ((coin.soldPriceVal - coin.purchasePrice)
              / coin.purchasePrice * 100) * coin.purchasePrice) a) := by
  induction l generalizing a with
  | nil => rfl
  | cons c l ih =>
    have hc : c.purchasePrice ≠ 0 := h c (by simp)
    have hl : ∀ x ∈ l, x.purchasePrice ≠ 0 := fun x hx => h x (by simp [hx])
    have hdiv : JsNum.div (JsNum.num (c.soldPriceVal - c.purchasePrice))
        (JsNum.num c.purchasePrice)
        = JsNum.num ((c.soldPriceVal - c.purchasePrice) / c.purchasePrice) := by
      simp [JsNum.div, hc]
    simp only [List.foldl_cons]
    rw [hdiv]
    exact ih hl _

/-- Bridge for the active bucket: when the code's division is not reached
with a zero divisor, the JavaScript `activeCoinsROI` is finite and equals
the exact one. -/
lemma activeCoinsROIJs_eq (coins : List Coin)
    (h2 : 0 < (activeCoins coins).length → totalActiveValue coins ≠ 0) :
    activeCoinsROIJs coins = JsNum.num (activeCoinsROI coins) := by
  unfold activeCoinsROIJs activeCoinsROI
  by_cases hlen : 0 < (activeCoins coins).length
  · rw [if_pos hlen, if_pos hlen]
    simp [JsNum.div, h2 hlen]
  · rw [if_neg hlen, if_neg hlen]

/-- Bridge for the sold bucket: with nonzero purchase prices on the sold
bucket and a nonzero bucket total, the JavaScript `soldCoinsROI` is finite
and equals the exact one. -/
lemma soldCoinsROIJs_eq (coins : List Coin)
    (h3 : ∀ c ∈ soldCoins coins, c.purchasePrice ≠ 0)
    (h4 : 0 < (soldCoins coins).length → totalSoldValue coins ≠ 0) :
    soldCoinsROIJs coins = JsNum.num (soldCoinsROI coins) := by
  unfold soldCoinsROIJs soldCoinsROI
  by_cases hlen : 0 < (soldCoins coins).length
  · rw [if_pos hlen, if_pos hlen, sold_foldl_js_eq _ h3]
    simp [JsNum.div, h4 hlen]
  · rw [if_neg hlen, if_neg hlen]

/-- C1 counterexample: the claimed equality is false of the program.  At
`[zeroValueCoin, soldCoinSample]` — allowed by the claim (nonnegative
amounts) — the code divides `0/0` in the active bucket, so its three-level
`totalROI` is NaN, while the single-pass weighted average is `50`; at
`[zeroPurchaseSoldCoin, soldCoinSample]` the sold bucket's per-coin
division by `purchasePrice = 0` produces Infinity and then
`Infinity * 0 = NaN`, with the same disagreement. -/
theorem totalROIJs_nan_counterexample :
    totalROIJs [zeroValueCoin, soldCoinSample] = JsNum.nan ∧
    singlePassROI [zeroValueCoin, soldCoinSample] = 50 ∧
    totalROIJs [zeroValueCoin, soldCoinSample]
      ≠ JsNum.num (singlePassROI [zeroValueCoin, soldCoinSample]) ∧
    totalROIJs [zeroPurchaseSoldCoin, soldCoinSample] = JsNum.nan ∧
    singlePassROI [zeroPurchaseSoldCoin, soldCoinSample] = 50 ∧
    totalROIJs [zeroPurchaseSoldCoin, soldCoinSample]
      ≠ JsNum.num (singlePassROI [zeroPurchaseSoldCoin, soldCoinSample]) := by
  have e1 : totalROIJs [zeroValueCoin, soldCoinSample] = JsNum.nan := by
    norm_num [totalROIJs, activeCoinsROIJs, soldCoinsROIJs, activeCoins,
      soldCoins, totalActiveValue, totalSoldValue, totalInvestmentValue,
      zeroValueCoin, soldCoinSample, Coin.soldPriceTruthy, Coin.soldPriceVal,
      JsNum.div, JsNum.mul, JsNum.add]
  have e2 : singlePassROI [zeroValueCoin, soldCoinSample] = 50 := by
    norm_num [singlePassROI, coinROIWeight, coinROIContribution,
      zeroValueCoin, soldCoinSample, Coin.soldPriceTruthy, Coin.soldPriceVal]
  have e3 : totalROIJs [zeroPurchaseSoldCoin, soldCoinSample] = JsNum.nan := by
    norm_num [totalROIJs, activeCoinsROIJs, soldCoinsROIJs, activeCoins,
      soldCoins, totalActiveValue, totalSoldValue, totalInvestmentValue,
      zeroPurchaseSoldCoin, soldCoinSample, Coin.soldPriceTruthy,
      Coin.soldPriceVal, JsNum.div, JsNum.mul, JsNum.add]
  have e4 : singlePassROI [zeroPurchaseSoldCoin, soldCoinSample] = 50 := by
    norm_num [singlePassROI, coinROIWeight, coinROIContribution,
      zeroPurchaseSoldCoin, soldCoinSample, Coin.soldPriceTruthy,
      Coin.soldPriceVal]
  refine ⟨e1, e2, ?_, e3, e4, ?_⟩
  · rw [e1, e2]
    simp
  · rw [e3, e4]
    simp

/-- C1 (amended): under JavaScript number semantics the three-level
`totalROI` equals the single-pass weighted average whenever no division of
the composition is reached with a zero divisor: the coins carry the data
model's nonnegative amounts, a nonempty active bucket has nonzero total
`currentValue`, and every sold-bucket coin has a nonzero `purchasePrice`.
Outside these hypotheses the program computes NaN and the equality fails
(see the counterexample). -/
theorem totalROIJs_eq_singlePassROI (coins : List Coin)
    (h1 : ∀ c ∈ coins, 0 ≤ c.currentValue ∧ 0 ≤ c.purchasePrice)
    (h2 : 0 < (activeCoins coins).length → totalActiveValue coins ≠ 0)
    (h3 : ∀ c ∈ soldCoins coins, c.purchasePrice ≠ 0) :
    totalROIJs coins = JsNum.num (singlePassROI coins) := by
  have h4 : 0 < (soldCoins coins).length → totalSoldValue coins ≠ 0 := by
    intro hlen
    have hpos : ∀ x ∈ (soldCoins coins).map (fun c => c.purchasePrice), 0 < x := by
      intro x hx
      rcases List.mem_map.mp hx with ⟨c, hc, rfl⟩
      have h0 : 0 ≤ c.purchasePrice := (h1 c (List.mem_of_mem_filter hc)).2
      exact lt_of_le_of_ne h0 (Ne.symm (h3 c hc))
    have hne : (soldCoins coins).map (fun c => c.purchasePrice) ≠ [] := by
      simp only [ne_eq, List.map_eq_nil_iff]
      intro hnil
      rw [hnil] at hlen
      simp at hlen
    have hsum := List.sum_pos _ hpos hne
    unfold totalSoldValue
    rw [foldl_add_eq_sum, zero_add]
    exact ne_of_gt hsum
  have hA := activeCoinsROIJs_eq coins h2
  have hS := soldCoinsROIJs_eq coins h3 h4
  have hRat := totalROI_rat_eq_singlePassROI coins h1
  rw [← hRat]
  unfold totalROIJs
  rw [hA, hS]
  by_cases hpos : 0 < totalInvestmentValue coins
  · rw [if_pos hpos]
    have hval : totalROI coins
        = (activeCoinsROI coins * totalActiveValue coins
            + soldCoinsROI coins * totalSoldValue coins)
          / totalInvestmentValue coins := by
      unfold totalROI
      rw [if_pos hpos]
    rw [hval]
    simp [JsNum.mul, JsNum.add, JsNum.div, ne_of_gt hpos]
  · rw [if_neg hpos]
    have hval : totalROI coins = 0 := by
      unfold totalROI
      rw [if_neg hpos]
    rw [hval]

/-- Witness for the amended C1 at a concrete portfolio of one active and
one sold coin, discharging all three hypotheses. -/
theorem totalROIJs_eq_singlePassROI_witness :
    (∀ c ∈ [sampleCoin, soldCoinSample],
      0 ≤ c.currentValue ∧ 0 ≤ c.purchasePrice) ∧
    (0 < (activeCoins [sampleCoin, soldCoinSample]).length →
      totalActiveValue [sampleCoin, soldCoinSample] ≠ 0) ∧
    (∀ c ∈ soldCoins [sampleCoin, soldCoinSample], c.purchasePrice ≠ 0) ∧
    totalROIJs [sampleCoin, soldCoinSample]
      = JsNum.num (singlePassROI [sampleCoin, soldCoinSample]) := by
  have h1 : ∀ c ∈ [sampleCoin, soldCoinSample],
      0 ≤ c.currentValue ∧ 0 ≤ c.purchasePrice := by
    intro c hc
    simp at hc
    rcases hc with rfl | rfl <;>
      norm_num [sampleCoin, soldCoinSample]
  have h2 : 0 < (activeCoins [sampleCoin, soldCoinSample]).length →
      totalActiveValue [sampleCoin, soldCoinSample] ≠ 0 := by
    intro _
    norm_num [totalActiveValue, activeCoins, sampleCoin, soldCoinSample]
  have h3 : ∀ c ∈ soldCoins [sampleCoin, soldCoinSample],
      c.purchasePrice ≠ 0 := by
    have hs : soldCoins [sampleCoin, soldCoinSample] = [soldCoinSample] := by
      norm_num [soldCoins, sampleCoin, soldCoinSample, Coin.soldPriceTruthy]
    rw [hs]
    intro c hc
    simp at hc
    subst hc
    norm_num [soldCoinSample]
  exact ⟨h1, h2, h3,
    totalROIJs_eq_singlePassROI [sampleCoin, soldCoinSample] h1 h2 h3⟩

end Apex
